import Mathlib

/-!
Shallow embedding of the core pipeline of `midi_to_image.py`:
color mapping, note-span extraction, strip building, rectangle packing
and the built-in PNG writer.  Python floats are modelled as exact
rationals (`ℚ`), Python ints as `ℕ`/`ℤ`, the Python `random` module as an
explicitly threaded stream `rng : ℕ → ℕ` of `randint(0, 255)` draws, and
Python list mutation as explicit value passing (functions that mutate a
list also return its final contents).
-/

namespace MidiToImage

/-- An RGB pixel, each channel a natural number (0–255 in practice). -/
abbrev Pixel := ℕ × ℕ × ℕ

/-- Base colour of a pitch class, merging the lookups in `NATURAL_COLORS`
and `SHARP_COLORS` of the source (the source looks the pitch-class name up
first among sharps, then among naturals, defaulting to grey `(80,80,80)`;
indices 0–11 are the names `C, C#, D, D#, E, F, F#, G, G#, A, A#, B`). -/
def baseColor (pc : ℕ) : Pixel :=
  match pc with
  | 0 => (255, 214, 10)     -- C
  | 1 => (255, 0, 255)      -- C#
  | 2 => (46, 204, 113)     -- D
  | 3 => (153, 50, 204)     -- D#
  | 4 => (201, 162, 39)     -- E
  | 5 => (31, 58, 147)      -- F
  | 6 => (180, 255, 0)      -- F#
  | 7 => (93, 173, 226)     -- G
  | 8 => (255, 87, 34)      -- G#
  | 9 => (139, 0, 0)        -- A
  | 10 => (0, 255, 255)     -- A#
  | 11 => (44, 62, 80)      -- B
  | _ => (80, 80, 80)

/-- `min(255, int(c * scale))` for one channel; `int` truncates toward 0,
which on the non-negative values used here is the floor. -/
def scaleChannel (c : ℕ) (scale : ℚ) : ℕ :=
  min 255 (⌊(c : ℚ) * scale⌋.toNat)

/-- Embedding of `color_for_note`: base colour of `note % 12`, scaled by
`0.4 + 0.6 * (max(0, min(127, velocity)) / 127)` (the `max 0` is implicit
in the `ℕ` model). -/
def color_for_note (note velocity : ℕ) : Pixel :=
  let base := baseColor (note % 12)
  let scale : ℚ := 2 / 5 + 3 / 5 * ((min 127 velocity : ℕ) : ℚ) / 127
  (scaleChannel base.1 scale, scaleChannel base.2.1 scale, scaleChannel base.2.2 scale)

/-- A closed note interval, as produced by `parse_midi_to_spans`
(the Python field `end` is called `endTime` here, `end` being reserved). -/
structure NoteSpan where
  note : ℕ
  channel : ℕ
  start : ℚ
  endTime : ℚ
  velocity : ℕ
deriving DecidableEq, Repr

/-- The MIDI messages the parser inspects, as delivered by
`mido.merge_tracks` (already merged in absolute order; `time` is the tick
delta to the previous message).  All other message types only advance
time, which `other` models. -/
inductive Msg where
  | setTempo (time tempo : ℕ)
  | noteOn (time channel note velocity : ℕ)
  | noteOff (time channel note : ℕ)
  | other (time : ℕ)
deriving DecidableEq, Repr

/-- Tick delta of a message. -/
def Msg.time : Msg → ℕ
  | .setTempo t _ => t
  | .noteOn t _ _ _ => t
  | .noteOff t _ _ => t
  | .other t => t

/-- Note number carried by a message (0 when it has none). -/
def Msg.noteVal : Msg → ℕ
  | .noteOn _ _ n _ => n
  | .noteOff _ _ n => n
  | _ => 0

/-- Velocity carried by a message (0 when it has none). -/
def Msg.velVal : Msg → ℕ
  | .noteOn _ _ _ v => v
  | _ => 0

/-- Embedding of `mido.tick2second`: `tick * (tempo * 1e-6 / ticks_per_beat)`. -/
def tick2second (ticks tpb tempo : ℕ) : ℚ :=
  (ticks : ℚ) * ((tempo : ℚ) / 1000000 / (tpb : ℚ))

/-- Python-dict update: overwrite in place when the key is present,
append otherwise (insertion order preserved, as in CPython). -/
def updAssoc {α β : Type} [DecidableEq α] (k : α) (v : β) :
    List (α × β) → List (α × β)
  | [] => [(k, v)]
  | (k', v') :: rest =>
      if k' = k then (k, v) :: rest else (k', v') :: updAssoc k v rest

/-- Python-dict lookup. -/
def lookupAssoc {α β : Type} [DecidableEq α] (k : α) :
    List (α × β) → Option β
  | [] => none
  | (k', v') :: rest => if k' = k then some v' else lookupAssoc k rest

/-- Python-dict `pop`: remove the entry for `k`. -/
def eraseAssoc {α β : Type} [DecidableEq α] (k : α) :
    List (α × β) → List (α × β)
  | [] => []
  | (k', v') :: rest =>
      if k' = k then rest else (k', v') :: eraseAssoc k rest

/-- The mutable state of the `parse_midi_to_spans` loop: current time in
seconds, current tempo, the active-note table `(channel, note) ↦
(start_seconds, velocity)` and the spans emitted so far. -/
structure ParseState where
  time : ℚ
  tempo : ℕ
  active : List ((ℕ × ℕ) × (ℚ × ℕ))
  spans : List NoteSpan
deriving Repr

/-- The note-off branch of the loop (also used for zero-velocity
note-ons): close the active entry for the key, if any, emitting a span. -/
def closeNote (st : ParseState) (t : ℚ) (ch n : ℕ) : ParseState :=
  match lookupAssoc (ch, n) st.active with
  | some (s, v) =>
      { st with
        time := t
        active := eraseAssoc (ch, n) st.active
        spans := st.spans ++ [⟨n, ch, s, t, v⟩] }
  | none => { st with time := t }

/-- One iteration of the message loop of `parse_midi_to_spans`. -/
def stepMsg (tpb : ℕ) (st : ParseState) (m : Msg) : ParseState :=
  let t := st.time + tick2second m.time tpb st.tempo
  match m with
  | .setTempo _ tempo => { st with time := t, tempo := tempo }
  | .noteOn _ ch n v =>
      if 0 < v then
        { st with time := t, active := updAssoc (ch, n) (t, v) st.active }
      else
        closeNote st t ch n
  | .noteOff _ ch n => closeNote st t ch n
  | .other _ => { st with time := t }

/-- Initial loop state: time 0, default tempo 500000 µs/beat, no active
notes, no spans. -/
def initState : ParseState := ⟨0, 500000, [], []⟩

/-- The whole message loop. -/
def runParse (tpb : ℕ) (msgs : List Msg) : ParseState :=
  msgs.foldl (stepMsg tpb) initState

/-- The final flush: an active entry becomes a span ending at time `t`. -/
def flushSpan (t : ℚ) (e : (ℕ × ℕ) × (ℚ × ℕ)) : NoteSpan :=
  ⟨e.1.2, e.1.1, e.2.1, t, e.2.2⟩

/-- Embedding of `parse_midi_to_spans` on an already-merged message list:
run the loop, then close every still-active note at the last observed
time. -/
def parse_midi_to_spans (tpb : ℕ) (msgs : List Msg) : List NoteSpan :=
  let st := runParse tpb msgs
  st.spans ++ st.active.map (flushSpan st.time)

/-- Maximum `end` over a span list, `max(span.end for span in spans)` in
Python (only ever used on a non-empty list; 0 on `[]`). -/
def maxEnd : List NoteSpan → ℚ
  | [] => 0
  | s :: rest => rest.foldl (fun a x => max a x.endTime) s.endTime

/-- One filler pixel: three consecutive `random.randint(0, 255)` draws
from the threaded stream, starting at position `k`. -/
def randPixel (rng : ℕ → ℕ) (k : ℕ) : Pixel :=
  (rng k % 256, rng (k + 1) % 256, rng (k + 2) % 256)

/-- The pixel the strip-builder loop emits at sample index `i` when the
random stream stands at position `k`:  `t = i * (1 / pixels_per_second)`;
average the colours of the active spans, else fall back to the
background colour or a random pixel. -/
def stripPixel (spans : List NoteSpan) (pps : ℕ) (bg : Option Pixel)
    (rng : ℕ → ℕ) (k i : ℕ) : Pixel :=
  let t : ℚ := (i : ℚ) * (1 / (pps : ℚ))
  let act := spans.filter (fun s => decide (s.start ≤ t ∧ t < s.endTime))
  if act.isEmpty then
    match bg with
    | none => randPixel rng k
    | some c => c
  else
    ((act.map (fun s => (color_for_note s.note s.velocity).1)).sum / act.length,
     (act.map (fun s => (color_for_note s.note s.velocity).2.1)).sum / act.length,
     (act.map (fun s => (color_for_note s.note s.velocity).2.2)).sum / act.length)

/-- How many random draws the pixel at index `i` consumes (3 for a random
filler pixel, 0 otherwise). -/
def stripCost (spans : List NoteSpan) (pps : ℕ) (bg : Option Pixel) (i : ℕ) : ℕ :=
  let t : ℚ := (i : ℚ) * (1 / (pps : ℚ))
  let act := spans.filter (fun s => decide (s.start ≤ t ∧ t < s.endTime))
  if act.isEmpty then (if bg = none then 3 else 0) else 0

/-- The strip-builder loop: emit `n` more pixels starting at sample
index `i`, the random stream standing at position `k`. -/
def stripBuild (spans : List NoteSpan) (pps : ℕ) (bg : Option Pixel)
    (rng : ℕ → ℕ) : ℕ → ℕ → ℕ → List Pixel
  | _, _, 0 => []
  | i, k, n + 1 =>
      stripPixel spans pps bg rng k i ::
        stripBuild spans pps bg rng (i + 1) (k + stripCost spans pps bg i) n

/-- Embedding of `spans_to_color_strip`: on an empty span list return the
empty strip (the source returns `[]` without touching anything else);
otherwise emit `max(1, ceil(max_end * pixels_per_second))` samples. -/
def spans_to_color_strip (pps : ℕ) (bg : Option Pixel) (rng : ℕ → ℕ)
    (spans : List NoteSpan) : List Pixel :=
  if spans = [] then []
  else
    let totalDuration := maxEnd spans
    let totalPixels := max 1 (⌈totalDuration * (pps : ℚ)⌉.toNat)
    stripBuild spans pps bg rng 0 0 totalPixels

/-- Embedding of `int(math.ceil(math.sqrt(q)))` in exact arithmetic:
`⌈√q⌉`, i.e. the least `n : ℕ` with `q ≤ n²`, computed through `⌈q⌉` and
`Nat.sqrt` (for `q ≤ 0` this is 0). -/
def ceilSqrtQ (q : ℚ) : ℕ :=
  let m := (⌈q⌉).toNat
  if Nat.sqrt m * Nat.sqrt m = m then Nat.sqrt m else Nat.sqrt m + 1

/-- The dimension computation of `color_strip_to_rect_image`:
`target = w / h`, `height = ceil(sqrt(area / target))`,
`width = ceil(height * target)`; returns `(width, height)`. -/
def packDims (area : ℕ) (ratioW ratioH : ℤ) : ℕ × ℕ :=
  let target : ℚ := (ratioW : ℚ) / (ratioH : ℚ)
  let height := ceilSqrtQ ((area : ℚ) / target)
  let width := (⌈(height : ℚ) * target⌉).toNat
  (width, height)

/-- The padding pixels the packer appends: `needed` random pixels (the
stream standing at position `k`) when `noise` is set, else `needed`
black pixels. -/
def packPadding (rng : ℕ → ℕ) (k needed : ℕ) (noise : Bool) : List Pixel :=
  if noise then (List.range needed).map (fun j => randPixel rng (k + 3 * j))
  else List.replicate needed (0, 0, 0)

/-- Embedding of `color_strip_to_rect_image` (the Pillow-less path).
The input list is mutated in place by the source (`strip.append` /
`strip.extend`), so the result carries both the returned triple
`(width, height, strip[: width * height])` and the final contents of the
caller's list. -/
def color_strip_to_rect_image (rng : ℕ → ℕ) (k : ℕ) (strip : List Pixel)
    (ratioW ratioH : ℤ) (noise : Bool) :
    Except String (ℕ × ℕ × List Pixel × List Pixel) :=
  if strip = [] then .error "Color strip is empty"
  else if ratioW ≤ 0 ∨ ratioH ≤ 0 then .error "Aspect ratio must be positive"
  else
    let area := strip.length
    let width := (packDims area ratioW ratioH).1
    let height := (packDims area ratioW ratioH).2
    let needed := width * height - area
    let finalStrip :=
      if 0 < needed then strip ++ packPadding rng k needed noise else strip
    .ok (width, height, finalStrip.take (width * height), finalStrip)

/-- Big-endian 4-byte encoding, `struct.pack("!I", n)`. -/
def be32 (n : ℕ) : List ℕ :=
  [n / 2 ^ 24 % 256, n / 2 ^ 16 % 256, n / 2 ^ 8 % 256, n % 256]

/-- One step of the reflected CRC-32 bit loop (polynomial `0xEDB88320`). -/
def crc32Step (c : ℕ) : ℕ :=
  if c % 2 = 1 then (c / 2) ^^^ 0xEDB88320 else c / 2

/-- Fold one byte into a CRC-32 accumulator. -/
def crc32Byte (c b : ℕ) : ℕ := crc32Step^[8] (c ^^^ b % 256)

/-- CRC-32 as computed by `zlib.crc32` (init and final xor `0xFFFFFFFF`). -/
def crc32 (bs : List ℕ) : ℕ :=
  (bs.foldl crc32Byte 0xFFFFFFFF) ^^^ 0xFFFFFFFF

/-- The three bytes of a pixel. -/
def pixBytes (p : Pixel) : List ℕ := [p.1, p.2.1, p.2.2]

/-- The `chunk` helper of `_write_png`:
`[4-byte BE length][tag][payload][4-byte BE CRC-32 of tag + payload]`. -/
def pngChunk (tag payload : List ℕ) : List ℕ :=
  be32 payload.length ++ tag ++ payload ++ be32 (crc32 (tag ++ payload))

/-- The raw scanline buffer of `_write_png`, built exactly as its nested
loops do: for each row append the filter byte 0, then the three bytes of
each pixel of the row. -/
def rawData (width height : ℕ) (data : List Pixel) : List ℕ :=
  (List.range height).foldl
    (fun acc y =>
      (List.range width).foldl
        (fun acc2 x => acc2 ++ pixBytes (data.getD (y * width + x) (0, 0, 0)))
        (acc ++ [0]))
    []

/-- The PNG signature `b"\x89PNG\r\n\x1a\n"`. -/
def pngSig : List ℕ := [0x89, 0x50, 0x4E, 0x47, 0x0D, 0x0A, 0x1A, 0x0A]

/-- Embedding of `_write_png` up to the file write: the byte sequence it
serialises, parameterised by the deflate compressor `compress`
(`zlib.compress(·, level=9)` in the source, an external library). -/
def write_png (compress : List ℕ → List ℕ) (width height : ℕ)
    (data : List Pixel) : List ℕ :=
  pngSig
    ++ pngChunk [0x49, 0x48, 0x44, 0x52] (be32 width ++ be32 height ++ [8, 2, 0, 0, 0])
    ++ pngChunk [0x49, 0x44, 0x41, 0x54] (compress (rawData width height data))
    ++ pngChunk [0x49, 0x45, 0x4E, 0x44] []

/-! ## Helper lemmas -/

/-- `ceilSqrtQ q` squares to at least `q`: upper part of `⌈√q⌉`. -/
lemma ceilSqrtQ_le_sq (q : ℚ) : q ≤ (ceilSqrtQ q : ℚ) ^ 2 := by
  unfold ceilSqrtQ
  have hq : q ≤ (((⌈q⌉).toNat : ℕ) : ℚ) := by
    calc q ≤ (⌈q⌉ : ℚ) := Int.le_ceil q
    _ ≤ (((⌈q⌉).toNat : ℤ) : ℚ) := by exact_mod_cast Int.self_le_toNat _
    _ = (((⌈q⌉).toNat : ℕ) : ℚ) := by push_cast; ring
  by_cases h : Nat.sqrt (⌈q⌉).toNat * Nat.sqrt (⌈q⌉).toNat = (⌈q⌉).toNat
  · rw [if_pos h]
    refine hq.trans ?_
    rw [show ((Nat.sqrt (⌈q⌉).toNat : ℕ) : ℚ) ^ 2
        = (((Nat.sqrt (⌈q⌉).toNat * Nat.sqrt (⌈q⌉).toNat : ℕ) : ℚ)) by push_cast; ring, h]
  · rw [if_neg h]
    refine hq.trans ?_
    exact_mod_cast (Nat.lt_succ_sqrt' (⌈q⌉).toNat).le

/-- Any natural below `ceilSqrtQ q` squares to below `q`: minimality of
`⌈√q⌉`. -/
lemma sq_lt_of_lt_ceilSqrtQ (q : ℚ) {m : ℕ} (h : m < ceilSqrtQ q) :
    (m : ℚ) ^ 2 < q := by
  unfold ceilSqrtQ at h
  have hmm : m * m < (⌈q⌉).toNat := by
    by_cases hps : Nat.sqrt (⌈q⌉).toNat * Nat.sqrt (⌈q⌉).toNat = (⌈q⌉).toNat
    · rw [if_pos hps] at h
      calc m * m < Nat.sqrt (⌈q⌉).toNat * Nat.sqrt (⌈q⌉).toNat :=
            Nat.mul_self_lt_mul_self h
      _ = (⌈q⌉).toNat := hps
    · rw [if_neg hps] at h
      have h1 : m ≤ Nat.sqrt (⌈q⌉).toNat := Nat.lt_succ_iff.mp h
      calc m * m ≤ Nat.sqrt (⌈q⌉).toNat * Nat.sqrt (⌈q⌉).toNat :=
            Nat.mul_self_le_mul_self h1
      _ < (⌈q⌉).toNat := lt_of_le_of_ne (Nat.sqrt_le _) hps
  have hc : 0 ≤ ⌈q⌉ := by
    by_contra hneg
    push_neg at hneg
    have : (⌈q⌉).toNat = 0 := Int.toNat_of_nonpos hneg.le
    omega
  have hz : ((m * m : ℕ) : ℤ) < ⌈q⌉ := by
    have := Int.toNat_of_nonneg hc
    omega
  have h4 : (⌈q⌉ : ℚ) < q + 1 := Int.ceil_lt_add_one q
  have h5 : ((m * m : ℕ) : ℚ) + 1 ≤ (⌈q⌉ : ℚ) := by exact_mod_cast hz
  have : ((m * m : ℕ) : ℚ) < q := by linarith
  calc (m : ℚ) ^ 2 = ((m * m : ℕ) : ℚ) := by push_cast; ring
  _ < q := this

/-! ## Claim C1: empty span list through the pipeline -/

/-- Claim C1 counterexample: with an empty span list the strip builder
does not raise anything — it silently returns the empty strip. -/
theorem c1_counterexample :
    spans_to_color_strip 50 none (fun _ => 0) [] = ([] : List Pixel) := by
  simp [spans_to_color_strip]

/-- Claim C1 (amended): for an empty span list the strip builder returns
the empty strip; the error is raised one stage later, by the rectangle
packer on the zero-length strip, so a 0×0 image is still never
produced. -/
theorem c1_empty_spans (pps : ℕ) (bg : Option Pixel) (rng rng2 : ℕ → ℕ)
    (k : ℕ) (ratioW ratioH : ℤ) (noise : Bool) :
    spans_to_color_strip pps bg rng [] = [] ∧
    color_strip_to_rect_image rng2 k (spans_to_color_strip pps bg rng [])
        ratioW ratioH noise = .error "Color strip is empty" := by
  constructor
  · simp [spans_to_color_strip]
  · simp [spans_to_color_strip, color_strip_to_rect_image]

/-! ## Claim C2: rectangle packer dimensions -/

/-- Claim C2 counterexample: at strip length 13 and the default 4:3
ratio the packer picks 6×4 = 24 pixels, an excess of 11, which is not
below `width + height = 10`; the claimed bound
`width × height − area < width + height` fails. -/
theorem c2_counterexample :
    packDims 13 4 3 = (6, 4) ∧
    ¬ ((packDims 13 4 3).1 * (packDims 13 4 3).2 - 13
        < (packDims 13 4 3).1 + (packDims 13 4 3).2) := by
  have harg : ((13 : ℕ) : ℚ) / (((4 : ℤ) : ℚ) / ((3 : ℤ) : ℚ)) = 39 / 4 := by
    norm_num
  have hceil : ⌈(39 / 4 : ℚ)⌉ = 10 := by
    rw [Int.ceil_eq_iff]
    constructor <;> norm_num
  have hsqrt : Nat.sqrt 10 = 3 := by
    have := Nat.sqrt_add_eq 3 (a := 1) (by norm_num)
    simpa using this
  have hc2 : ⌈(16 / 3 : ℚ)⌉ = 6 := by
    rw [Int.ceil_eq_iff]
    constructor <;> norm_num
  have hdims : packDims 13 4 3 = (6, 4) := by
    simp only [packDims, ceilSqrtQ]
    rw [harg, hceil]
    rw [show Int.toNat 10 = 10 from rfl, hsqrt]
    norm_num
    rw [hc2]
    rfl
  refine ⟨hdims, ?_⟩
  rw [hdims]
  decide

/-- Claim C2 (amended): for a non-empty strip and a positive ratio the
packer computes `height = ⌈√(area / (w/h))⌉` (characterised as the least
natural whose square is at least `area / (w/h)`) and
`width = ⌈height × (w/h)⌉`, and these satisfy `width × height ≥ area`;
the additional claimed bound `width × height − area < width + height`
does not hold in general (see the counterexample) and is dropped. -/
theorem c2_pack_dims (area : ℕ) (ratioW ratioH : ℤ)
    (ha : 0 < area) (hw : 0 < ratioW) (hh : 0 < ratioH) :
    ((area : ℚ) / ((ratioW : ℚ) / (ratioH : ℚ))
        ≤ ((packDims area ratioW ratioH).2 : ℚ) ^ 2) ∧
    (∀ m : ℕ, m < (packDims area ratioW ratioH).2 →
        (m : ℚ) ^ 2 < (area : ℚ) / ((ratioW : ℚ) / (ratioH : ℚ))) ∧
    (((packDims area ratioW ratioH).2 : ℚ) * ((ratioW : ℚ) / (ratioH : ℚ))
        ≤ ((packDims area ratioW ratioH).1 : ℚ)) ∧
    (((packDims area ratioW ratioH).1 : ℚ)
        < ((packDims area ratioW ratioH).2 : ℚ) * ((ratioW : ℚ) / (ratioH : ℚ)) + 1) ∧
    area ≤ (packDims area ratioW ratioH).1 * (packDims area ratioW ratioH).2 := by
  have hr : (0 : ℚ) < (ratioW : ℚ) / (ratioH : ℚ) := by
    apply div_pos <;> exact_mod_cast ‹_›
  set r : ℚ := (ratioW : ℚ) / (ratioH : ℚ) with hrdef
  have hH : (packDims area ratioW ratioH).2 = ceilSqrtQ ((area : ℚ) / r) := rfl
  have hW : (packDims area ratioW ratioH).1
      = (⌈((ceilSqrtQ ((area : ℚ) / r) : ℕ) : ℚ) * r⌉).toNat := rfl
  have h1 : (area : ℚ) / r ≤ ((packDims area ratioW ratioH).2 : ℚ) ^ 2 := by
    rw [hH]; exact ceilSqrtQ_le_sq _
  have h2 : ∀ m : ℕ, m < (packDims area ratioW ratioH).2 →
      (m : ℚ) ^ 2 < (area : ℚ) / r := by
    intro m hm
    rw [hH] at hm
    exact sq_lt_of_lt_ceilSqrtQ _ hm
  have hprod : 0 ≤ ((packDims area ratioW ratioH).2 : ℚ) * r := by
    apply mul_nonneg (by positivity) hr.le
  have hceilnn : 0 ≤ ⌈((packDims area ratioW ratioH).2 : ℚ) * r⌉ :=
    Int.ceil_nonneg hprod
  have hcast : (((⌈((packDims area ratioW ratioH).2 : ℚ) * r⌉).toNat : ℕ) : ℚ)
      = ((⌈((packDims area ratioW ratioH).2 : ℚ) * r⌉ : ℤ) : ℚ) := by
    exact_mod_cast Int.toNat_of_nonneg hceilnn
  have h3 : ((packDims area ratioW ratioH).2 : ℚ) * r
      ≤ ((packDims area ratioW ratioH).1 : ℚ) := by
    rw [hW, ← hH, hcast]
    exact Int.le_ceil _
  have h4 : ((packDims area ratioW ratioH).1 : ℚ)
      < ((packDims area ratioW ratioH).2 : ℚ) * r + 1 := by
    rw [hW, ← hH, hcast]
    exact Int.ceil_lt_add_one _
  refine ⟨h1, h2, h3, h4, ?_⟩
  have key : (area : ℚ)
      ≤ ((packDims area ratioW ratioH).1 : ℚ) * ((packDims area ratioW ratioH).2 : ℚ) := by
    have step1 : (area : ℚ) ≤ ((packDims area ratioW ratioH).2 : ℚ) ^ 2 * r := by
      have := mul_le_mul_of_nonneg_right h1 hr.le
      rwa [div_mul_cancel₀ _ (ne_of_gt hr)] at this
    calc (area : ℚ) ≤ ((packDims area ratioW ratioH).2 : ℚ) ^ 2 * r := step1
    _ = (((packDims area ratioW ratioH).2 : ℚ) * r)
        * ((packDims area ratioW ratioH).2 : ℚ) := by ring
    _ ≤ ((packDims area ratioW ratioH).1 : ℚ)
        * ((packDims area ratioW ratioH).2 : ℚ) := by
          apply mul_le_mul_of_nonneg_right h3 (by positivity)
  exact_mod_cast key

/-- Witness for `c2_pack_dims` at strip length 13 and ratio 4:3. -/
theorem c2_pack_dims_witness :
    0 < 13 ∧ (0 : ℤ) < 4 ∧ (0 : ℤ) < 3 ∧
    (((13 : ℕ) : ℚ) / (((4 : ℤ) : ℚ) / ((3 : ℤ) : ℚ))
        ≤ ((packDims 13 4 3).2 : ℚ) ^ 2) ∧
    (∀ m : ℕ, m < (packDims 13 4 3).2 →
        (m : ℚ) ^ 2 < ((13 : ℕ) : ℚ) / (((4 : ℤ) : ℚ) / ((3 : ℤ) : ℚ))) ∧
    (((packDims 13 4 3).2 : ℚ) * (((4 : ℤ) : ℚ) / ((3 : ℤ) : ℚ))
        ≤ ((packDims 13 4 3).1 : ℚ)) ∧
    (((packDims 13 4 3).1 : ℚ)
        < ((packDims 13 4 3).2 : ℚ) * (((4 : ℤ) : ℚ) / ((3 : ℤ) : ℚ)) + 1) ∧
    13 ≤ (packDims 13 4 3).1 * (packDims 13 4 3).2 :=
  ⟨by decide, by decide, by decide,
    c2_pack_dims 13 4 3 (by decide) (by decide) (by decide)⟩

/-! ## Claim C4: tick-to-second conversion -/

/-- Claim C4 counterexample: a note-on at tick 0 followed by a note-off
at tick 480 at the default tempo (500000 µs/beat, 480 ticks/beat) yields
one span `start = 0, end = 1/2` — one beat lasts half a second at 120
BPM — not `end = 1.0` as the claimed concrete scenario states (the
claim's own duration formula gives `480 × 0.5 / 480 = 0.5`). -/
theorem c4_counterexample :
    parse_midi_to_spans 480 [Msg.noteOn 0 0 60 100, Msg.noteOff 480 0 60]
      = [⟨60, 0, 0, 1 / 2, 100⟩] ∧ (1 / 2 : ℚ) ≠ 1 := by
  constructor
  · simp [parse_midi_to_spans, runParse, stepMsg, initState, closeNote,
      lookupAssoc, updAssoc, eraseAssoc, tick2second, Msg.time, flushSpan]
    norm_num
  · norm_num

/-- Claim C4 (amended): deltas are converted with the tempo in effect at
the time of the delta and accumulated in seconds, so a note-on
immediately followed by a note-off with tick delta `d` at constant tempo
`T` yields one span of duration `d × (T / 1000000) / ticks_per_beat`
seconds; the concrete scenario (tick delta 480 at tempo 500000, 480
ticks/beat) therefore yields the single span `start = 0, end = 0.5`
(not `1.0` as originally claimed). -/
theorem c4_delta_duration (tpb T ch n v d : ℕ) (hv : 0 < v) (htpb : 0 < tpb) :
    parse_midi_to_spans tpb
        [Msg.setTempo 0 T, Msg.noteOn 0 ch n v, Msg.noteOff d ch n]
      = [⟨n, ch, 0, (d : ℚ) * ((T : ℚ) / 1000000) / (tpb : ℚ), v⟩] ∧
    parse_midi_to_spans 480 [Msg.noteOn 0 0 60 100, Msg.noteOff 480 0 60]
      = [⟨60, 0, 0, 1 / 2, 100⟩] := by
  constructor
  · simp [parse_midi_to_spans, runParse, stepMsg, initState, closeNote,
      lookupAssoc, updAssoc, eraseAssoc, tick2second, Msg.time, flushSpan, hv]
    ring
  · simp [parse_midi_to_spans, runParse, stepMsg, initState, closeNote,
      lookupAssoc, updAssoc, eraseAssoc, tick2second, Msg.time, flushSpan]
    norm_num

/-- Witness for `c4_delta_duration` at tick delta 960, tempo 250000,
480 ticks/beat, channel 2, note 64, velocity 90. -/
theorem c4_delta_duration_witness :
    0 < 90 ∧ 0 < 480 ∧
    (parse_midi_to_spans 480
        [Msg.setTempo 0 250000, Msg.noteOn 0 2 64 90, Msg.noteOff 960 2 64]
      = [⟨64, 2, 0, (960 : ℚ) * ((250000 : ℚ) / 1000000) / (480 : ℚ), 90⟩] ∧
    parse_midi_to_spans 480 [Msg.noteOn 0 0 60 100, Msg.noteOff 480 0 60]
      = [⟨60, 0, 0, 1 / 2, 100⟩]) :=
  ⟨by decide, by decide, c4_delta_duration 480 250000 2 64 90 960 (by decide) (by decide)⟩


lemma mem_updAssoc {α β : Type} [DecidableEq α] {k : α} {v : β} {e : α × β} :
    ∀ {l : List (α × β)}, e ∈ updAssoc k v l → e = (k, v) ∨ e ∈ l := by
  intro l
  induction l with
  | nil => intro h; simpa [updAssoc] using h
  | cons p rest ih =>
      intro h
      obtain ⟨k', v'⟩ := p
      by_cases hk : k' = k
      · rw [updAssoc, if_pos hk] at h
        rcases List.mem_cons.mp h with h | h
        · exact Or.inl h
        · exact Or.inr (List.mem_cons_of_mem _ h)
      · rw [updAssoc, if_neg hk] at h
        rcases List.mem_cons.mp h with h | h
        · exact Or.inr (h ▸ List.mem_cons_self _ _)
        · rcases ih h with h | h
          · exact Or.inl h
          · exact Or.inr (List.mem_cons_of_mem _ h)

lemma mem_eraseAssoc {α β : Type} [DecidableEq α] {k : α} {e : α × β} :
    ∀ {l : List (α × β)}, e ∈ eraseAssoc k l → e ∈ l := by
  intro l
  induction l with
  | nil => intro h; simpa [eraseAssoc] using h
  | cons p rest ih =>
      intro h
      obtain ⟨k', v'⟩ := p
      by_cases hk : k' = k
      · rw [eraseAssoc, if_pos hk] at h
        exact List.mem_cons_of_mem _ h
      · rw [eraseAssoc, if_neg hk] at h
        rcases List.mem_cons.mp h with h | h
        · exact h ▸ List.mem_cons_self _ _
        · exact List.mem_cons_of_mem _ (ih h)

lemma lookupAssoc_mem {α β : Type} [DecidableEq α] {k : α} {v : β} :
    ∀ {l : List (α × β)}, lookupAssoc k l = some v → (k, v) ∈ l := by
  intro l
  induction l with
  | nil => intro h; simp [lookupAssoc] at h
  | cons p rest ih =>
      intro h
      obtain ⟨k', v'⟩ := p
      by_cases hk : k' = k
      · rw [lookupAssoc, if_pos hk] at h
        subst hk
        obtain rfl : v' = v := by injection h
        exact List.mem_cons_self _ _
      · rw [lookupAssoc, if_neg hk] at h
        exact List.mem_cons_of_mem _ (ih h)

lemma lookupAssoc_updAssoc_self {α β : Type} [DecidableEq α] (k : α) (v : β) :
    ∀ (l : List (α × β)), lookupAssoc k (updAssoc k v l) = some v := by
  intro l
  induction l with
  | nil => simp [updAssoc, lookupAssoc]
  | cons p rest ih =>
      obtain ⟨k', v'⟩ := p
      by_cases hk : k' = k
      · rw [updAssoc, if_pos hk, lookupAssoc, if_pos rfl]
      · rw [updAssoc, if_neg hk, lookupAssoc, if_neg hk]
        exact ih

lemma eraseAssoc_sublist {α β : Type} [DecidableEq α] (k : α) :
    ∀ (l : List (α × β)), (eraseAssoc k l).Sublist l := by
  intro l
  induction l with
  | nil => simp [eraseAssoc]
  | cons p rest ih =>
      obtain ⟨k', v'⟩ := p
      by_cases hk : k' = k
      · rw [eraseAssoc, if_pos hk]
        exact (List.sublist_cons_self _ _)
      · rw [eraseAssoc, if_neg hk]
        exact List.Sublist.cons₂ _ ih

lemma mem_keys_updAssoc {α β : Type} [DecidableEq α] {k x : α} {v : β} :
    ∀ {l : List (α × β)}, x ∈ (updAssoc k v l).map Prod.fst →
      x = k ∨ x ∈ l.map Prod.fst := by
  intro l h
  rcases List.mem_map.mp h with ⟨e, he, rfl⟩
  rcases mem_updAssoc he with rfl | he'
  · exact Or.inl rfl
  · exact Or.inr (List.mem_map_of_mem _ he')

lemma nodup_keys_updAssoc {α β : Type} [DecidableEq α] (k : α) (v : β) :
    ∀ {l : List (α × β)}, (l.map Prod.fst).Nodup →
      ((updAssoc k v l).map Prod.fst).Nodup := by
  intro l
  induction l with
  | nil => intro _; simp [updAssoc]
  | cons p rest ih =>
      intro h
      obtain ⟨k', v'⟩ := p
      rw [List.map_cons, List.nodup_cons] at h
      by_cases hk : k' = k
      · rw [updAssoc, if_pos hk, List.map_cons, List.nodup_cons]
        exact ⟨hk ▸ h.1, h.2⟩
      · rw [updAssoc, if_neg hk, List.map_cons, List.nodup_cons]
        refine ⟨fun hmem => ?_, ih h.2⟩
        rcases mem_keys_updAssoc hmem with rfl | hmem'
        · exact hk rfl
        · exact h.1 hmem'

lemma tick2second_nonneg (a b c : ℕ) : 0 ≤ tick2second a b c := by
  unfold tick2second
  positivity



lemma closeNote_inv (st : ParseState) (t : ℚ) (ch n : ℕ)
    (hn : n ≤ 127) (ht : st.time ≤ t)
    (h1 : ∀ sp ∈ st.spans, sp.start ≤ sp.endTime ∧ sp.velocity ≤ 127 ∧ sp.note ≤ 127)
    (h2 : ∀ e ∈ st.active, e.2.1 ≤ st.time ∧ e.2.2 ≤ 127 ∧ e.1.2 ≤ 127) :
    (closeNote st t ch n).time = t ∧
    (∀ sp ∈ (closeNote st t ch n).spans,
        sp.start ≤ sp.endTime ∧ sp.velocity ≤ 127 ∧ sp.note ≤ 127) ∧
    (∀ e ∈ (closeNote st t ch n).active,
        e.2.1 ≤ t ∧ e.2.2 ≤ 127 ∧ e.1.2 ≤ 127) := by
  unfold closeNote
  cases hl : lookupAssoc (ch, n) st.active with
  | none =>
      refine ⟨rfl, h1, fun e he => ?_⟩
      obtain ⟨he1, he2, he3⟩ := h2 e he
      exact ⟨he1.trans ht, he2, he3⟩
  | some p =>
      obtain ⟨s, v⟩ := p
      have hmem := lookupAssoc_mem hl
      obtain ⟨hs, hv, _⟩ := h2 _ hmem
      refine ⟨rfl, fun sp hsp => ?_, fun e he => ?_⟩
      · rcases List.mem_append.mp hsp with hsp | hsp
        · exact h1 sp hsp
        · rcases List.mem_singleton.mp hsp with rfl
          exact ⟨hs.trans ht, hv, hn⟩
      · obtain ⟨he1, he2, he3⟩ := h2 e (mem_eraseAssoc he)
        exact ⟨he1.trans ht, he2, he3⟩

lemma stepMsg_inv (tpb : ℕ) (st : ParseState) (m : Msg)
    (hm : m.noteVal ≤ 127 ∧ m.velVal ≤ 127)
    (h1 : ∀ sp ∈ st.spans, sp.start ≤ sp.endTime ∧ sp.velocity ≤ 127 ∧ sp.note ≤ 127)
    (h2 : ∀ e ∈ st.active, e.2.1 ≤ st.time ∧ e.2.2 ≤ 127 ∧ e.1.2 ≤ 127) :
    (∀ sp ∈ (stepMsg tpb st m).spans,
        sp.start ≤ sp.endTime ∧ sp.velocity ≤ 127 ∧ sp.note ≤ 127) ∧
    (∀ e ∈ (stepMsg tpb st m).active,
        e.2.1 ≤ (stepMsg tpb st m).time ∧ e.2.2 ≤ 127 ∧ e.1.2 ≤ 127) := by
  have ht : st.time ≤ st.time + tick2second m.time tpb st.tempo := by
    have := tick2second_nonneg m.time tpb st.tempo
    linarith
  cases m with
  | setTempo mt tempo =>
      refine ⟨h1, fun e he => ?_⟩
      obtain ⟨he1, he2, he3⟩ := h2 e he
      exact ⟨he1.trans ht, he2, he3⟩
  | other mt =>
      refine ⟨h1, fun e he => ?_⟩
      obtain ⟨he1, he2, he3⟩ := h2 e he
      exact ⟨he1.trans ht, he2, he3⟩
  | noteOn mt ch n v =>
      obtain ⟨hmn, hmv⟩ := hm
      simp only [Msg.noteVal] at hmn
      simp only [Msg.velVal] at hmv
      by_cases hv : 0 < v
      · rw [stepMsg]
        simp only [if_pos hv]
        refine ⟨h1, fun e he => ?_⟩
        rcases mem_updAssoc he with rfl | he'
        · exact ⟨le_refl _, hmv, hmn⟩
        · obtain ⟨he1, he2, he3⟩ := h2 e he'
          exact ⟨he1.trans ht, he2, he3⟩
      · rw [stepMsg]
        simp only [if_neg hv, Msg.time]
        have hc := closeNote_inv st (st.time + tick2second mt tpb st.tempo) ch n hmn ht h1 h2
        refine ⟨hc.2.1, fun e he => ?_⟩
        rw [hc.1]
        exact hc.2.2 e he
  | noteOff mt ch n =>
      obtain ⟨hmn, _⟩ := hm
      simp only [Msg.noteVal] at hmn
      rw [stepMsg]
      simp only [Msg.time]
      have hc := closeNote_inv st (st.time + tick2second mt tpb st.tempo) ch n hmn ht h1 h2
      refine ⟨hc.2.1, fun e he => ?_⟩
      rw [hc.1]
      exact hc.2.2 e he



lemma foldl_inv (tpb : ℕ) :
    ∀ (msgs : List Msg) (st : ParseState),
      (∀ m ∈ msgs, m.noteVal ≤ 127 ∧ m.velVal ≤ 127) →
      (∀ sp ∈ st.spans, sp.start ≤ sp.endTime ∧ sp.velocity ≤ 127 ∧ sp.note ≤ 127) →
      (∀ e ∈ st.active, e.2.1 ≤ st.time ∧ e.2.2 ≤ 127 ∧ e.1.2 ≤ 127) →
      (∀ sp ∈ (msgs.foldl (stepMsg tpb) st).spans,
          sp.start ≤ sp.endTime ∧ sp.velocity ≤ 127 ∧ sp.note ≤ 127) ∧
      (∀ e ∈ (msgs.foldl (stepMsg tpb) st).active,
          e.2.1 ≤ (msgs.foldl (stepMsg tpb) st).time ∧ e.2.2 ≤ 127 ∧ e.1.2 ≤ 127) := by
  intro msgs
  induction msgs with
  | nil => intro st _ h1 h2; exact ⟨h1, h2⟩
  | cons m rest ih =>
      intro st hwf h1 h2
      have hm := hwf m (List.mem_cons_self _ _)
      have hstep := stepMsg_inv tpb st m hm h1 h2
      exact ih (stepMsg tpb st m)
        (fun m' hm' => hwf m' (List.mem_cons_of_mem _ hm')) hstep.1 hstep.2

/-- Claim C5: every span emitted by the extractor satisfies
`end ≥ start`, `velocity ≤ 127` and `note ≤ 127` (the lower bounds 0 are
carried by the `ℕ` type), provided every input message carries a note
number and velocity in 0–127 (the external reader's contract). -/
theorem c5_span_invariants (tpb : ℕ) (msgs : List Msg)
    (hwf : ∀ m ∈ msgs, m.noteVal ≤ 127 ∧ m.velVal ≤ 127) :
    ∀ sp ∈ parse_midi_to_spans tpb msgs,
      sp.start ≤ sp.endTime ∧ sp.velocity ≤ 127 ∧ sp.note ≤ 127 := by
  intro sp hsp
  have hinv := foldl_inv tpb msgs initState hwf
    (by intro sp h; simp [initState] at h)
    (by intro e h; simp [initState] at h)
  rw [parse_midi_to_spans] at hsp
  rcases List.mem_append.mp hsp with h | h
  · exact hinv.1 sp h
  · rcases List.mem_map.mp h with ⟨e, he, rfl⟩
    obtain ⟨he1, he2, he3⟩ := hinv.2 e he
    exact ⟨he1, he2, he3⟩

theorem c5_witness :
    (∀ m ∈ [Msg.noteOn 0 0 60 100, Msg.noteOff 480 0 60],
        m.noteVal ≤ 127 ∧ m.velVal ≤ 127) ∧
    (∀ sp ∈ parse_midi_to_spans 480 [Msg.noteOn 0 0 60 100, Msg.noteOff 480 0 60],
        sp.start ≤ sp.endTime ∧ sp.velocity ≤ 127 ∧ sp.note ≤ 127) :=
  ⟨by decide, c5_span_invariants 480 _ (by decide)⟩

lemma foldl_keys_nodup (tpb : ℕ) :
    ∀ (msgs : List Msg) (st : ParseState),
      ((st.active.map Prod.fst).Nodup) →
      (((msgs.foldl (stepMsg tpb) st).active.map Prod.fst).Nodup) := by
  intro msgs
  induction msgs with
  | nil => intro st h; exact h
  | cons m rest ih =>
      intro st h
      refine ih _ ?_
      cases m with
      | setTempo mt tempo => exact h
      | other mt => exact h
      | noteOn mt ch n v =>
          by_cases hv : 0 < v
          · rw [stepMsg]
            simp only [if_pos hv]
            exact nodup_keys_updAssoc _ _ h
          · rw [stepMsg]
            simp only [if_neg hv]
            unfold closeNote
            cases hl : lookupAssoc (ch, n) st.active with
            | none => exact h
            | some p =>
                obtain ⟨s, v'⟩ := p
                exact ((eraseAssoc_sublist _ _).map _).nodup h
      | noteOff mt ch n =>
          rw [stepMsg]
          unfold closeNote
          cases hl : lookupAssoc (ch, n) st.active with
          | none => exact h
          | some p =>
              obtain ⟨s, v'⟩ := p
              exact ((eraseAssoc_sublist _ _).map _).nodup h

/-- Claim C6: at stream end the extractor output is the loop's emitted
spans followed by exactly one flush span per still-active key (the
active-table keys are pairwise distinct), each flush span ending at the
last observed time; in particular a note-on with no matching note-off
yields exactly one span ending at the stream's final time. -/
theorem c6_flush_hanging (tpb : ℕ) (msgs : List Msg) :
    parse_midi_to_spans tpb msgs
        = (runParse tpb msgs).spans
            ++ (runParse tpb msgs).active.map (flushSpan (runParse tpb msgs).time) ∧
    (∀ e ∈ (runParse tpb msgs).active,
        (flushSpan (runParse tpb msgs).time e).endTime = (runParse tpb msgs).time) ∧
    (((runParse tpb msgs).active.map Prod.fst).Nodup) ∧
    parse_midi_to_spans 480 [Msg.noteOn 0 3 60 100, Msg.other 960]
        = [⟨60, 3, 0, 1, 100⟩] := by
  refine ⟨rfl, fun e _ => rfl, ?_, ?_⟩
  · exact foldl_keys_nodup tpb msgs initState (by simp [initState])
  · simp [parse_midi_to_spans, runParse, stepMsg, initState, closeNote,
      lookupAssoc, updAssoc, eraseAssoc, tick2second, Msg.time, flushSpan]
    norm_num

/-- Claim C7: a note-on with positive velocity for a key that is already
sounding overwrites the stored start time and velocity with the new
event's values and emits no span for the orphaned earlier period. -/
theorem c7_retrigger_overwrites (tpb : ℕ) (st : ParseState)
    (d ch n v : ℕ) (p : ℚ × ℕ) (hv : 0 < v)
    (hs : lookupAssoc (ch, n) st.active = some p) :
    (stepMsg tpb st (Msg.noteOn d ch n v)).spans = st.spans ∧
    lookupAssoc (ch, n) (stepMsg tpb st (Msg.noteOn d ch n v)).active
      = some (st.time + tick2second d tpb st.tempo, v) := by
  constructor
  · rw [stepMsg]
    simp only [Msg.time, if_pos hv]
  · rw [stepMsg]
    simp only [Msg.time, if_pos hv]
    exact lookupAssoc_updAssoc_self _ _ _

theorem c7_witness :
    0 < 90 ∧
    lookupAssoc (0, 60) [((0, 60), ((0 : ℚ), 50))] = some ((0 : ℚ), 50) ∧
    ((stepMsg 480 ⟨0, 500000, [((0, 60), ((0 : ℚ), 50))], []⟩
        (Msg.noteOn 480 0 60 90)).spans
      = (⟨0, 500000, [((0, 60), ((0 : ℚ), 50))], []⟩ : ParseState).spans ∧
    lookupAssoc (0, 60)
        (stepMsg 480 ⟨0, 500000, [((0, 60), ((0 : ℚ), 50))], []⟩
          (Msg.noteOn 480 0 60 90)).active
      = some ((⟨0, 500000, [((0, 60), ((0 : ℚ), 50))], []⟩ : ParseState).time
          + tick2second 480 480 500000, 90)) := by
  refine ⟨by decide, ?_, ?_⟩
  · rfl
  · exact c7_retrigger_overwrites 480 ⟨0, 500000, [((0, 60), ((0 : ℚ), 50))], []⟩
      480 0 60 90 ((0 : ℚ), 50) (by decide) rfl

lemma stripBuild_length (spans : List NoteSpan) (pps : ℕ) (bg : Option Pixel)
    (rng : ℕ → ℕ) : ∀ (n i k : ℕ), (stripBuild spans pps bg rng i k n).length = n := by
  intro n
  induction n with
  | zero => intro i k; rfl
  | succ n ih => intro i k; simp [stripBuild, ih]

lemma stripBuild_get (spans : List NoteSpan) (pps : ℕ) (bg : Option Pixel)
    (rng : ℕ → ℕ) : ∀ (n i k j : ℕ), j < n →
      ∃ k', (stripBuild spans pps bg rng i k n).get? j
        = some (stripPixel spans pps bg rng k' (i + j)) := by
  intro n
  induction n with
  | zero => intro i k j hj; omega
  | succ n ih =>
      intro i k j hj
      cases j with
      | zero =>
          refine ⟨k, ?_⟩
          simp [stripBuild]
      | succ j =>
          obtain ⟨k', hk⟩ := ih (i + 1) (k + stripCost spans pps bg i) j (by omega)
          refine ⟨k', ?_⟩
          rw [stripBuild]
          rw [List.get?_cons_succ]
          rw [hk]
          ring_nf

/-- Claim C3: for a non-empty span list the strip has length
`max(1, ⌈max_end × pps⌉)`; at each index `i` with sample time
`t = i / pps`, when the set of active spans (`start ≤ t < end`,
half-open) is non-empty the pixel is the per-channel sum of the active
spans' mapped colours integer-divided by the active count, and a span
whose `end` equals `t` is never active at `t`. -/
theorem c3_strip_semantics (spans : List NoteSpan) (pps : ℕ) (bg : Option Pixel)
    (rng : ℕ → ℕ) (hne : spans ≠ []) (hpps : 0 < pps) :
    (spans_to_color_strip pps bg rng spans).length
        = max 1 (⌈maxEnd spans * (pps : ℚ)⌉.toNat) ∧
    ∀ i < (spans_to_color_strip pps bg rng spans).length,
      (spans.filter (fun s =>
          decide (s.start ≤ (i : ℚ) / (pps : ℚ) ∧ (i : ℚ) / (pps : ℚ) < s.endTime)) ≠ [] →
        (spans_to_color_strip pps bg rng spans).get? i
          = some
            (((spans.filter (fun s =>
                decide (s.start ≤ (i : ℚ) / (pps : ℚ) ∧ (i : ℚ) / (pps : ℚ) < s.endTime))).map
                  (fun s => (color_for_note s.note s.velocity).1)).sum
                / (spans.filter (fun s =>
                    decide (s.start ≤ (i : ℚ) / (pps : ℚ) ∧ (i : ℚ) / (pps : ℚ) < s.endTime))).length,
              ((spans.filter (fun s =>
                decide (s.start ≤ (i : ℚ) / (pps : ℚ) ∧ (i : ℚ) / (pps : ℚ) < s.endTime))).map
                  (fun s => (color_for_note s.note s.velocity).2.1)).sum
                / (spans.filter (fun s =>
                    decide (s.start ≤ (i : ℚ) / (pps : ℚ) ∧ (i : ℚ) / (pps : ℚ) < s.endTime))).length,
              ((spans.filter (fun s =>
                decide (s.start ≤ (i : ℚ) / (pps : ℚ) ∧ (i : ℚ) / (pps : ℚ) < s.endTime))).map
                  (fun s => (color_for_note s.note s.velocity).2.2)).sum
                / (spans.filter (fun s =>
                    decide (s.start ≤ (i : ℚ) / (pps : ℚ) ∧ (i : ℚ) / (pps : ℚ) < s.endTime))).length)) ∧
      (∀ s ∈ spans, s.endTime = (i : ℚ) / (pps : ℚ) →
        s ∉ spans.filter (fun s =>
          decide (s.start ≤ (i : ℚ) / (pps : ℚ) ∧ (i : ℚ) / (pps : ℚ) < s.endTime))) := by
  have hdiv : ∀ i : ℕ, (i : ℚ) * (1 / (pps : ℚ)) = (i : ℚ) / (pps : ℚ) := by
    intro i; rw [mul_one_div]
  have hunfold : spans_to_color_strip pps bg rng spans
      = stripBuild spans pps bg rng 0 0 (max 1 (⌈maxEnd spans * (pps : ℚ)⌉.toNat)) := by
    rw [spans_to_color_strip, if_neg hne]
  have hlen : (spans_to_color_strip pps bg rng spans).length
      = max 1 (⌈maxEnd spans * (pps : ℚ)⌉.toNat) := by
    rw [hunfold]; exact stripBuild_length _ _ _ _ _ _ _
  refine ⟨hlen, fun i hi => ⟨fun hact => ?_, fun s hs hend hmem => ?_⟩⟩
  · obtain ⟨k', hk⟩ := stripBuild_get spans pps bg rng
      (max 1 (⌈maxEnd spans * (pps : ℚ)⌉.toNat)) 0 0 i (by rw [hlen] at hi; exact hi)
    rw [hunfold]
    rw [show (0 : ℕ) + i = i by omega] at hk
    rw [hk]
    congr 1
    rw [stripPixel.eq_def]
    simp only [hdiv]
    rw [if_neg]
    simp only [List.isEmpty_iff]
    exact hact
  · rw [List.mem_filter] at hmem
    have h2 := of_decide_eq_true hmem.2
    rw [hend] at h2
    exact lt_irrefl _ h2.2

/-- Witness for `c3_strip_semantics` on one span covering `[0, 1)`
sampled at 1 pixel per second. -/
theorem c3_strip_semantics_witness :
    ([⟨60, 0, 0, 1, 100⟩] : List NoteSpan) ≠ [] ∧ 0 < 1 ∧
    ((spans_to_color_strip 1 none (fun _ => 0) [⟨60, 0, 0, 1, 100⟩]).length
        = max 1 (⌈maxEnd [⟨60, 0, 0, 1, 100⟩] * ((1 : ℕ) : ℚ)⌉.toNat) ∧
    ∀ i < (spans_to_color_strip 1 none (fun _ => 0) [⟨60, 0, 0, 1, 100⟩]).length,
      (([⟨60, 0, 0, 1, 100⟩] : List NoteSpan).filter (fun s =>
          decide (s.start ≤ (i : ℚ) / ((1 : ℕ) : ℚ) ∧ (i : ℚ) / ((1 : ℕ) : ℚ) < s.endTime)) ≠ [] →
        (spans_to_color_strip 1 none (fun _ => 0) [⟨60, 0, 0, 1, 100⟩]).get? i
          = some
            (((([⟨60, 0, 0, 1, 100⟩] : List NoteSpan).filter (fun s =>
                decide (s.start ≤ (i : ℚ) / ((1 : ℕ) : ℚ) ∧ (i : ℚ) / ((1 : ℕ) : ℚ) < s.endTime))).map
                  (fun s => (color_for_note s.note s.velocity).1)).sum
                / (([⟨60, 0, 0, 1, 100⟩] : List NoteSpan).filter (fun s =>
                    decide (s.start ≤ (i : ℚ) / ((1 : ℕ) : ℚ) ∧ (i : ℚ) / ((1 : ℕ) : ℚ) < s.endTime))).length,
              ((([⟨60, 0, 0, 1, 100⟩] : List NoteSpan).filter (fun s =>
                decide (s.start ≤ (i : ℚ) / ((1 : ℕ) : ℚ) ∧ (i : ℚ) / ((1 : ℕ) : ℚ) < s.endTime))).map
                  (fun s => (color_for_note s.note s.velocity).2.1)).sum
                / (([⟨60, 0, 0, 1, 100⟩] : List NoteSpan).filter (fun s =>
                    decide (s.start ≤ (i : ℚ) / ((1 : ℕ) : ℚ) ∧ (i : ℚ) / ((1 : ℕ) : ℚ) < s.endTime))).length,
              ((([⟨60, 0, 0, 1, 100⟩] : List NoteSpan).filter (fun s =>
                decide (s.start ≤ (i : ℚ) / ((1 : ℕ) : ℚ) ∧ (i : ℚ) / ((1 : ℕ) : ℚ) < s.endTime))).map
                  (fun s => (color_for_note s.note s.velocity).2.2)).sum
                / (([⟨60, 0, 0, 1, 100⟩] : List NoteSpan).filter (fun s =>
                    decide (s.start ≤ (i : ℚ) / ((1 : ℕ) : ℚ) ∧ (i : ℚ) / ((1 : ℕ) : ℚ) < s.endTime))).length)) ∧
      (∀ s ∈ ([⟨60, 0, 0, 1, 100⟩] : List NoteSpan), s.endTime = (i : ℚ) / ((1 : ℕ) : ℚ) →
        s ∉ ([⟨60, 0, 0, 1, 100⟩] : List NoteSpan).filter (fun s =>
          decide (s.start ≤ (i : ℚ) / ((1 : ℕ) : ℚ) ∧ (i : ℚ) / ((1 : ℕ) : ℚ) < s.endTime)))) :=
  ⟨by decide, by decide,
    c3_strip_semantics [⟨60, 0, 0, 1, 100⟩] 1 none (fun _ => 0) (by decide) (by decide)⟩

lemma foldl_append_flatten {α β : Type} (g : α → List β) :
    ∀ (l : List α) (acc : List β),
      l.foldl (fun a x => a ++ g x) acc = acc ++ (l.map g).flatten := by
  intro l
  induction l with
  | nil => intro acc; simp
  | cons x xs ih => intro acc; simp [ih]

/-- The imperative scanline buffer of `_write_png` equals the
concatenation over all rows of a scanline `0 :: three bytes per pixel`. -/
lemma rawData_eq (w h : ℕ) (data : List Pixel) :
    rawData w h data
      = ((List.range h).map (fun y =>
          0 :: ((List.range w).map
            (fun x => pixBytes (data.getD (y * w + x) (0, 0, 0)))).flatten)).flatten := by
  unfold rawData
  have hstep : (fun (acc : List ℕ) (y : ℕ) =>
      (List.range w).foldl
        (fun acc2 x => acc2 ++ pixBytes (data.getD (y * w + x) (0, 0, 0)))
        (acc ++ [0]))
      = fun (acc : List ℕ) (y : ℕ) =>
          acc ++ (0 :: ((List.range w).map
            (fun x => pixBytes (data.getD (y * w + x) (0, 0, 0)))).flatten) := by
    funext acc y
    rw [foldl_append_flatten]
    simp
  rw [hstep, foldl_append_flatten]
  simp

/-- Claim C8: the built-in encoder's output is exactly the 8-byte PNG
signature, then an IHDR chunk holding big-endian width and height, bit
depth 8, colour type 2 (truecolor) and zero compression/filter/interlace
bytes, then one IDAT chunk whose payload is the injected deflate
compressor applied to the scanlines (each a filter byte 0 followed by 3
bytes per pixel), then an empty IEND chunk — every chunk framed as
4-byte big-endian payload length, 4-byte ASCII tag, payload, and the
CRC-32 of tag and payload. -/
theorem c8_png_layout (compress : List ℕ → List ℕ) (w h : ℕ) (data : List Pixel)
    (hlen : data.length = w * h) :
    write_png compress w h data
      = pngSig
        ++ pngChunk [0x49, 0x48, 0x44, 0x52] (be32 w ++ be32 h ++ [8, 2, 0, 0, 0])
        ++ pngChunk [0x49, 0x44, 0x41, 0x54]
            (compress (((List.range h).map (fun y =>
              0 :: ((List.range w).map
                (fun x => pixBytes (data.getD (y * w + x) (0, 0, 0)))).flatten)).flatten))
        ++ pngChunk [0x49, 0x45, 0x4E, 0x44] [] ∧
    (∀ tag payload : List ℕ, pngChunk tag payload
        = be32 payload.length ++ tag ++ payload ++ be32 (crc32 (tag ++ payload))) := by
  refine ⟨?_, fun tag payload => rfl⟩
  rw [write_png, rawData_eq]

/-- Witness for `c8_png_layout` on a 1×1 red image with the identity as
compressor. -/
theorem c8_png_layout_witness :
    ([((255 : ℕ), (0 : ℕ), (0 : ℕ))] : List Pixel).length = 1 * 1 ∧
    (write_png id 1 1 [(255, 0, 0)]
      = pngSig
        ++ pngChunk [0x49, 0x48, 0x44, 0x52] (be32 1 ++ be32 1 ++ [8, 2, 0, 0, 0])
        ++ pngChunk [0x49, 0x44, 0x41, 0x54]
            (id (((List.range 1).map (fun y =>
              0 :: ((List.range 1).map
                (fun x => pixBytes (([((255 : ℕ), (0 : ℕ), (0 : ℕ))] : List Pixel).getD (y * 1 + x) (0, 0, 0)))).flatten)).flatten))
        ++ pngChunk [0x49, 0x45, 0x4E, 0x44] [] ∧
    (∀ tag payload : List ℕ, pngChunk tag payload
        = be32 payload.length ++ tag ++ payload ++ be32 (crc32 (tag ++ payload)))) :=
  ⟨by decide, c8_png_layout id 1 1 [(255, 0, 0)] (by decide)⟩

/-- Claim C9: the filler pixels of the strip builder are drawn from the
ambient random stream — evaluating the code on the same span list under
two different generator states yields different strips, so output
reproducibility requires control of the generator; the source offers no
parameter for it (it calls the unseeded module-global `random.randint`
directly), which the specification itself flags as the defect to
correct. -/
theorem c9_rng_dependence :
    spans_to_color_strip 1 none (fun _ => 0) [⟨60, 0, 1 / 2, 1, 100⟩]
      = [(0, 0, 0)] ∧
    spans_to_color_strip 1 none (fun _ => 1) [⟨60, 0, 1 / 2, 1, 100⟩]
      = [(1, 1, 1)] ∧
    spans_to_color_strip 1 none (fun _ => 0) [⟨60, 0, 1 / 2, 1, 100⟩]
      ≠ spans_to_color_strip 1 none (fun _ => 1) [⟨60, 0, 1 / 2, 1, 100⟩] := by
  have h0 : spans_to_color_strip 1 none (fun _ => 0) [⟨60, 0, 1 / 2, 1, 100⟩]
      = [(0, 0, 0)] := by
    rw [spans_to_color_strip, if_neg (by decide)]
    norm_num [maxEnd, stripBuild, stripPixel, stripCost, randPixel, List.filter]
  have h1 : spans_to_color_strip 1 none (fun _ => 1) [⟨60, 0, 1 / 2, 1, 100⟩]
      = [(1, 1, 1)] := by
    rw [spans_to_color_strip, if_neg (by decide)]
    norm_num [maxEnd, stripBuild, stripPixel, stripCost, randPixel, List.filter]
  refine ⟨h0, h1, ?_⟩
  rw [h0, h1]
  decide

lemma packPadding_length (rng : ℕ → ℕ) (k n : ℕ) (noise : Bool) :
    (packPadding rng k n noise).length = n := by
  cases noise <;> simp [packPadding]

lemma packPadding_zero (rng : ℕ → ℕ) (k : ℕ) (noise : Bool) :
    packPadding rng k 0 noise = [] := by
  cases noise <;> simp [packPadding]

/-- Claim C10 counterexample: packing the one-pixel strip `[(5,5,5)]` at
ratio 4:3 with noise padding leaves the caller's list holding
`[(5,5,5),(9,9,9)]` — the padding pixel was appended to the input list,
which is therefore not unchanged. -/
theorem c10_counterexample :
    color_strip_to_rect_image (fun _ => 9) 0 [(5, 5, 5)] 4 3 true
      = .ok (2, 1, [(5, 5, 5), (9, 9, 9)], [(5, 5, 5), (9, 9, 9)]) ∧
    ([(5, 5, 5), (9, 9, 9)] : List Pixel) ≠ [(5, 5, 5)] := by
  have hceil1 : ⌈((1 : ℕ) : ℚ) / (((4 : ℤ) : ℚ) / ((3 : ℤ) : ℚ))⌉ = 1 := by
    rw [show ((1 : ℕ) : ℚ) / (((4 : ℤ) : ℚ) / ((3 : ℤ) : ℚ)) = 3 / 4 by norm_num]
    rw [Int.ceil_eq_iff] <;> norm_num
  have hceil2 : ⌈(4 / 3 : ℚ)⌉ = 2 := by
    rw [Int.ceil_eq_iff] <;> norm_num
  have hdims : packDims 1 4 3 = (2, 1) := by
    simp only [packDims, ceilSqrtQ]
    rw [hceil1]
    norm_num
    rw [hceil2]
    rfl
  constructor
  · rw [color_strip_to_rect_image]
    rw [if_neg (by decide), if_neg (by decide)]
    simp only [List.length_singleton, hdims]
    norm_num [packPadding, randPixel]
  · decide

/-- Claim C10 (amended): the rectangle packer appends its padding pixels
directly to the caller's strip list — after a successful pack the list
holds the original strip followed by the padding, the returned buffer is
the `width × height` prefix of that mutated list, and the list has grown
to `width × height` entries whenever padding was needed. -/
theorem c10_packer_mutation (rng : ℕ → ℕ) (k : ℕ) (strip : List Pixel)
    (ratioW ratioH : ℤ) (noise : Bool) (w h : ℕ) (buf fs : List Pixel)
    (hok : color_strip_to_rect_image rng k strip ratioW ratioH noise
        = .ok (w, h, buf, fs)) :
    fs = strip ++ packPadding rng k (w * h - strip.length) noise ∧
    buf = fs.take (w * h) ∧
    fs.length = max strip.length (w * h) := by
  rw [color_strip_to_rect_image] at hok
  by_cases h1 : strip = []
  · rw [if_pos h1] at hok
    exact absurd hok (by simp)
  rw [if_neg h1] at hok
  by_cases h2 : ratioW ≤ 0 ∨ ratioH ≤ 0
  · rw [if_pos h2] at hok
    exact absurd hok (by simp)
  rw [if_neg h2] at hok
  simp only [Except.ok.injEq, Prod.mk.injEq] at hok
  obtain ⟨hw, hh, hbuf, hfs⟩ := hok
  subst hw hh
  by_cases hneed : 0 < (packDims strip.length ratioW ratioH).1
      * (packDims strip.length ratioW ratioH).2 - strip.length
  · rw [if_pos hneed] at hbuf hfs
    subst hfs
    refine ⟨rfl, hbuf.symm, ?_⟩
    rw [List.length_append, packPadding_length]
    omega
  · rw [if_neg hneed] at hbuf hfs
    subst hfs
    have hz : (packDims strip.length ratioW ratioH).1
        * (packDims strip.length ratioW ratioH).2 - strip.length = 0 := by omega
    rw [hz, packPadding_zero, List.append_nil]
    exact ⟨rfl, hbuf.symm, by omega⟩

/-- Witness for `c10_packer_mutation` on a one-pixel strip at ratio 1:1
(no padding needed). -/
theorem c10_packer_mutation_witness :
    color_strip_to_rect_image (fun _ => 0) 0 [(1, 2, 3)] 1 1 false
      = .ok (1, 1, [(1, 2, 3)], [(1, 2, 3)]) ∧
    (([(1, 2, 3)] : List Pixel)
        = [(1, 2, 3)] ++ packPadding (fun _ => 0) 0
            (1 * 1 - ([(1, 2, 3)] : List Pixel).length) false ∧
    ([(1, 2, 3)] : List Pixel) = ([(1, 2, 3)] : List Pixel).take (1 * 1) ∧
    ([(1, 2, 3)] : List Pixel).length
        = max ([(1, 2, 3)] : List Pixel).length (1 * 1)) := by
  have hok : color_strip_to_rect_image (fun _ => 0) 0 [(1, 2, 3)] 1 1 false
      = .ok (1, 1, [(1, 2, 3)], [(1, 2, 3)]) := by
    simp [color_strip_to_rect_image, packDims, ceilSqrtQ]
  exact ⟨hok, c10_packer_mutation (fun _ => 0) 0 [(1, 2, 3)] 1 1 false 1 1
    [(1, 2, 3)] [(1, 2, 3)] hok⟩

end MidiToImage
